import Mathlib

/-!
# Verification of the LlamaModelClient streaming parser

A shallow embedding of `phone_agent/model/llama_client.py`.  Text is
modelled as `List Char`; the pure classifier `_parse_response` and the
streaming event loop of `LlamaModelClient.request` are translated
directly from the source.  Wall-clock timestamps are modelled by the
index of the stream event at which they are taken: the claims under
study only concern *whether and when* a timestamp is assigned, never
its float value.
-/

namespace LlamaClient

/-- `"finish(message="`, the first boundary marker of `action_markers`. -/
def finMarker : List Char := "finish(message=".toList

/-- `"do(action="`, the second boundary marker of `action_markers`. -/
def doMarker : List Char := "do(action=".toList

/-- `"<answer>"`, the tag checked by the third branch of `_parse_response`. -/
def answerTag : List Char := "<answer>".toList

/-- `"</answer>"`. -/
def answerClose : List Char := "</answer>".toList

/-- `"<think>"`. -/
def thinkOpen : List Char := "<think>".toList

/-- `"</think>"`. -/
def thinkClose : List Char := "</think>".toList

/-- Whitespace characters removed by Python `str.strip()` (ASCII part). -/
def pyIsSpace (c : Char) : Bool :=
  c == ' ' || c == '\t' || c == '\n' || c == '\r' || c == '\x0b' || c == '\x0c'

/-- Python `s.strip()`: drop whitespace from both ends. -/
def pyStrip (s : List Char) : List Char :=
  ((s.dropWhile pyIsSpace).reverse.dropWhile pyIsSpace).reverse

/-- Split `s` at the first occurrence of `pat`: `some (before, after)` with
`s = before ++ pat ++ after`, or `none` when `pat` does not occur.
This models both Python `pat in s` (via `Option.isSome`) and
`s.split(pat, 1)`. -/
def splitFirst (pat : List Char) : List Char → Option (List Char × List Char)
  | [] => if pat.isPrefixOf ([] : List Char) then some ([], []) else none
  | c :: rest =>
    if pat.isPrefixOf (c :: rest) then some ([], (c :: rest).drop pat.length)
    else (splitFirst pat rest).map (fun pr => (c :: pr.1, pr.2))

/-- Fuel-indexed worker for `removeAll` (structural recursion so that the
kernel can evaluate it). -/
def removeAllAux (pat : List Char) : Nat → List Char → List Char
  | 0, s => s
  | fuel + 1, s =>
    if pat ≠ [] ∧ pat.isPrefixOf s then removeAllAux pat fuel (s.drop pat.length)
    else
      match s with
      | [] => []
      | c :: rest => c :: removeAllAux pat fuel rest

/-- Python `s.replace(pat, "")`: remove every (leftmost-first,
non-overlapping) occurrence of `pat` from `s`. -/
def removeAll (pat s : List Char) : List Char :=
  removeAllAux pat s.length s

/-- `LlamaModelClient._parse_response`, translated clause by clause:
each branch tests substring containment of its marker and splits at the
first occurrence. -/
def parse_response (content : List Char) : List Char × List Char :=
  match splitFirst finMarker content with
  | some (before, after) => (pyStrip before, finMarker ++ after)
  | none =>
    match splitFirst doMarker content with
    | some (before, after) => (pyStrip before, doMarker ++ after)
    | none =>
      match splitFirst answerTag content with
      | some (before, after) =>
        (pyStrip (removeAll thinkClose (removeAll thinkOpen before)),
         pyStrip (removeAll answerClose after))
      | none => ([], content)

example : parse_response "a finish(message=hi)".toList =
    ("a".toList, "finish(message=hi)".toList) := by decide

example : parse_response "x do(action=tap)".toList =
    ("x".toList, "do(action=tap)".toList) := by decide

example : parse_response "<think>t</think><answer>42</answer>".toList =
    ("t".toList, "42".toList) := by decide

example : parse_response "plain".toList = ([], "plain".toList) := by decide

/-! ## The streaming event loop of `LlamaModelClient.request` -/

/-- The `delta` object of the first choice of a stream event:
`{"content": ..., "text": ...}`, either field possibly absent. -/
structure Delta where
  content : Option (List Char)
  text : Option (List Char)

/-- Python `a or b` on an optional string: `b` when `a` is absent or empty. -/
def pyOrElse (a : Option (List Char)) (b : List Char) : List Char :=
  match a with
  | some s => if s.isEmpty then b else s
  | none => b

/-- `delta.get("content") or delta.get("text") or ""`. -/
def extractContent (d : Delta) : List Char :=
  pyOrElse d.content (pyOrElse d.text [])

/-- One server-sent event, as seen by the loop body after `event.data`
is examined: the `[DONE]` sentinel, a body that fails to parse as JSON,
or a parsed body carrying its (possibly empty) list of choice deltas. -/
inductive SSEEvent where
  | done
  | invalidJson
  | event (choices : List Delta)

/-- The loop-local mutable state of `request`, plus `printed`, the text
written so far to the live console output by the loop body. -/
structure StreamState where
  raw_content : List Char
  buffer : List Char
  in_action_phase : Bool
  first_token_received : Bool
  time_to_first_token : Option Nat
  time_to_thinking_end : Option Nat
  printed : List Char
deriving DecidableEq

/-- State before the first event. -/
def initState : StreamState :=
  ⟨[], [], false, false, none, none, []⟩

/-- The `for marker in action_markers: if marker in buffer:` scan.
Markers are tried in the fixed order `finish(message=`, `do(action=`;
the first one contained in the buffer wins and the scan returns
`buffer.split(marker, 1)[0]`, the text before its first occurrence. -/
def scanMarkers (buf : List Char) : Option (List Char) :=
  match splitFirst finMarker buf with
  | some pr => some pr.1
  | none =>
    match splitFirst doMarker buf with
    | some pr => some pr.1
    | none => none

/-- The partial-marker probe: for each marker and each `i` in
`range(1, len(marker))`, test `buffer.endswith(marker[:i])`. -/
def hasPartialMarkerAtEnd (buf : List Char) : Bool :=
  [finMarker, doMarker].any (fun m =>
    (List.range' 1 (m.length - 1)).any (fun i => (m.take i).isSuffixOf buf))

/-- `if not first_token_received: time_to_first_token = ...` -/
def recordFirstToken (st : StreamState) (idx : Nat) : StreamState :=
  if st.first_token_received then st
  else { st with time_to_first_token := some idx, first_token_received := true }

/-- The body of the event loop for an extracted content string, starting
at `if not content: continue`.  `idx` is the current clock value used for
any timestamp taken during this step. -/
def processContent (st : StreamState) (idx : Nat) (content : List Char) : StreamState :=
  if content.isEmpty then st
  else
    let st1 := { st with raw_content := st.raw_content ++ content }
    let st2 := recordFirstToken st1 idx
    if st2.in_action_phase then st2
    else
      let buf := st2.buffer ++ content
      match scanMarkers buf with
      | some thinking_part =>
        { st2 with
          buffer := buf
          in_action_phase := true
          time_to_thinking_end :=
            if st2.time_to_thinking_end = none then some idx
            else st2.time_to_thinking_end
          printed := st2.printed ++ thinking_part ++ ['\n'] }
      | none =>
        if hasPartialMarkerAtEnd buf then { st2 with buffer := buf }
        else { st2 with buffer := [], printed := st2.printed ++ buf }

/-- The loop body for one event: skip invalid JSON and empty choice
lists, otherwise use the first choice's delta. -/
def processEvent (st : StreamState) (idx : Nat) : SSEEvent → StreamState
  | SSEEvent.done => st
  | SSEEvent.invalidJson => st
  | SSEEvent.event [] => st
  | SSEEvent.event (d :: _) => processContent st idx (extractContent d)

/-- The event loop: fold over the stream, breaking at `[DONE]`.  The
clock `idx` ticks once per event consumed. -/
def runLoop : List SSEEvent → StreamState → Nat → StreamState
  | [], st, _ => st
  | SSEEvent.done :: _, st, _ => st
  | ev :: rest, st, idx => runLoop rest (processEvent st idx ev) (idx + 1)

/-- The final loop state of `request` on a given event stream. -/
def runEvents (events : List SSEEvent) : StreamState :=
  runLoop events initState 0

/-- The returned `ModelResponse` value. -/
structure ModelResponse where
  thinking : List Char
  action : List Char
  raw_content : List Char
  time_to_first_token : Option Nat
  time_to_thinking_end : Option Nat
  total_time : Nat
deriving DecidableEq

/-- `LlamaModelClient.request`, from the loop onward: run the loop,
classify the accumulated raw content, and package the result. -/
def request (events : List SSEEvent) : ModelResponse :=
  let st := runEvents events
  let pr := parse_response st.raw_content
  { thinking := pr.1
    action := pr.2
    raw_content := st.raw_content
    time_to_first_token := st.time_to_first_token
    time_to_thinking_end := st.time_to_thinking_end
    total_time := events.length }

/-- The content a single event contributes to `raw_content`. -/
def eventContent : SSEEvent → List Char
  | SSEEvent.event (d :: _) => extractContent d
  | _ => []

/-- Concatenation, in arrival order, of every delta content value
carried by the events before the `[DONE]` sentinel. -/
def streamedContent : List SSEEvent → List Char
  | [] => []
  | SSEEvent.done :: _ => []
  | ev :: rest => eventContent ev ++ streamedContent rest

/-- Index (clock value) of the first event before the sentinel whose
extracted delta content is non-empty, if any. -/
def firstContentIdx : List SSEEvent → Nat → Option Nat
  | [], _ => none
  | SSEEvent.done :: _, _ => none
  | ev :: rest, idx =>
    if (eventContent ev).isEmpty then firstContentIdx rest (idx + 1)
    else some idx

/-- Modelled from the spec: the `<answer>` branch of the spec's
`classifyContent` says the action is "text after the tag with a trailing
`</answer>` tag stripped and trimmed"; this function follows those
words (remove one `</answer>` from the end, when present, then trim),
for comparison with the code's behaviour. -/
def specTrailingAnswerAction (after : List Char) : List Char :=
  if answerClose.isSuffixOf after then
    pyStrip (after.take (after.length - answerClose.length))
  else pyStrip after

/-- The buffer ends in a proper, non-empty prefix of one of the boundary
markers (the situation in which the spec requires the buffer to be
withheld from the live output). -/
def ProperMarkerSuffix (buf : List Char) : Prop :=
  ∃ m, (m = finMarker ∨ m = doMarker) ∧
    ∃ i r, 0 < i ∧ i < m.length ∧ buf = r ++ m.take i

/-! ## Helper lemmas about `splitFirst` -/

theorem prefixOf_eq_true_iff (pat l : List Char) :
    pat.isPrefixOf l = true ↔ ∃ t, l = pat ++ t := by
  simp only [ List.isPrefixOf_iff_prefix]
  constructor
  · rintro ⟨t, ht⟩; exact ⟨t, ht.symm⟩
  · rintro ⟨t, ht⟩; exact ⟨t, ht.symm⟩

theorem splitFirst_eq_append (pat : List Char) :
    ∀ (s p t : List Char), splitFirst pat s = some (p, t) → s = p ++ pat ++ t
  | [], p, t, h => by
    unfold splitFirst at h
    split at h
    · rename_i hpre
      obtain ⟨u, hu⟩ := (prefixOf_eq_true_iff _ _).mp hpre
      simp only [Option.some.injEq, Prod.mk.injEq] at h
      obtain ⟨hp, ht⟩ := h
      subst hp; subst ht
      have : pat = [] := by
        cases pat with
        | nil => rfl
        | cons a l => simp at hu
      simp [this]
    · exact absurd h (by simp)
  | c :: rest, p, t, h => by
    unfold splitFirst at h
    split at h
    · rename_i hpre
      obtain ⟨u, hu⟩ := (prefixOf_eq_true_iff _ _).mp hpre
      simp only [Option.some.injEq, Prod.mk.injEq] at h
      obtain ⟨hp, ht⟩ := h
      subst hp
      rw [hu] at ht ⊢
      rw [← ht]
      simp [List.drop_left]
    · rw [Option.map_eq_some'] at h
      obtain ⟨⟨p₀, t₀⟩, hrec, hf⟩ := h
      have IH := splitFirst_eq_append pat rest p₀ t₀ hrec
      simp only [Prod.mk.injEq] at hf
      obtain ⟨hp, ht⟩ := hf
      subst hp; subst ht
      rw [IH]; simp

theorem splitFirst_min (pat : List Char) :
    ∀ (s p t : List Char), splitFirst pat s = some (p, t) →
      ∀ p' t', s = p' ++ pat ++ t' → p.length ≤ p'.length
  | [], p, t, h => by
    unfold splitFirst at h
    split at h
    · simp only [Option.some.injEq, Prod.mk.injEq] at h
      obtain ⟨hp, _⟩ := h
      subst hp
      intro p' t' _
      exact Nat.zero_le _
    · exact absurd h (by simp)
  | c :: rest, p, t, h => by
    unfold splitFirst at h
    split at h
    · simp only [Option.some.injEq, Prod.mk.injEq] at h
      obtain ⟨hp, _⟩ := h
      subst hp
      intro p' t' _
      exact Nat.zero_le _
    · rename_i hnpre
      rw [Option.map_eq_some'] at h
      obtain ⟨⟨p₀, t₀⟩, hrec, hf⟩ := h
      simp only [Prod.mk.injEq] at hf
      obtain ⟨hp, _⟩ := hf
      subst hp
      intro p' t' hdec
      cases p' with
      | nil =>
        exfalso
        apply hnpre
        exact (prefixOf_eq_true_iff _ _).mpr ⟨t', by simpa using hdec⟩
      | cons c' p₁ =>
        simp only [List.cons_append, List.cons.injEq] at hdec
        obtain ⟨_, hrest⟩ := hdec
        have IH := splitFirst_min pat rest p₀ t₀ hrec p₁ t' hrest
        simpa using Nat.succ_le_succ IH

theorem splitFirst_isSome_of_append (pat : List Char) :
    ∀ (p s t : List Char), s = p ++ pat ++ t → (splitFirst pat s).isSome = true
  | [], s, t, h => by
    have hpre : pat.isPrefixOf s = true :=
      (prefixOf_eq_true_iff _ _).mpr ⟨t, by simpa using h⟩
    cases s with
    | nil => simp [splitFirst, hpre]
    | cons c rest => simp [splitFirst, hpre]
  | c :: p₁, s, t, h => by
    have hs : s = c :: (p₁ ++ pat ++ t) := by simpa using h
    subst hs
    have IH := splitFirst_isSome_of_append pat p₁ (p₁ ++ pat ++ t) t rfl
    unfold splitFirst
    split
    · simp
    · cases hrec : splitFirst pat (p₁ ++ pat ++ t) with
      | none => rw [hrec] at IH; simp at IH
      | some pr => simp

theorem splitFirst_eq_none_iff (pat s : List Char) :
    splitFirst pat s = none ↔ ¬ ∃ p t, s = p ++ pat ++ t := by
  constructor
  · intro h
    rintro ⟨p, t, hdec⟩
    have := splitFirst_isSome_of_append pat p s t hdec
    rw [h] at this
    simp at this
  · intro h
    cases hsp : splitFirst pat s with
    | none => rfl
    | some pr =>
      exact absurd ⟨pr.1, pr.2, splitFirst_eq_append pat s pr.1 pr.2 hsp⟩ h

theorem splitFirst_eq_some_of_first (pat s p t : List Char)
    (hdec : s = p ++ pat ++ t)
    (hmin : ∀ p' t', s = p' ++ pat ++ t' → p.length ≤ p'.length) :
    splitFirst pat s = some (p, t) := by
  have hsome := splitFirst_isSome_of_append pat p s t hdec
  obtain ⟨⟨p₀, t₀⟩, h₀⟩ := Option.isSome_iff_exists.mp hsome
  have hd₀ := splitFirst_eq_append pat s p₀ t₀ h₀
  have h₁ := splitFirst_min pat s p₀ t₀ h₀ p t hdec
  have h₂ := hmin p₀ t₀ hd₀
  have hlen : p.length = p₀.length := Nat.le_antisymm h₂ h₁
  have heq : p ++ (pat ++ t) = p₀ ++ (pat ++ t₀) := by
    rw [← List.append_assoc, ← List.append_assoc, ← hdec, ← hd₀]
  obtain ⟨hpp, h₃⟩ := List.append_inj heq hlen
  have htt := List.append_cancel_left h₃
  rw [h₀, hpp, htt]

/-! ## Claims about `_parse_response` -/

/-- C2: for every content string containing `finish(message=` followed by
text `t`, `_parse_response` returns action exactly equal to the marker
concatenated with `t` (the text after the first occurrence, unmodified)
and thinking equal to the whitespace-trimmed text preceding that first
occurrence. -/
theorem c2_finish_split (content : List Char)
    (h : ∃ p t, content = p ++ finMarker ++ t) :
    ∃ p t, content = p ++ finMarker ++ t ∧
      (∀ p' t', content = p' ++ finMarker ++ t' → p.length ≤ p'.length) ∧
      parse_response content = (pyStrip p, finMarker ++ t) := by
  obtain ⟨p₀, t₀, h₀⟩ := h
  have hsome := splitFirst_isSome_of_append finMarker p₀ content t₀ h₀
  obtain ⟨⟨p, t⟩, hpt⟩ := Option.isSome_iff_exists.mp hsome
  refine ⟨p, t, splitFirst_eq_append _ _ _ _ hpt, splitFirst_min _ _ _ _ hpt, ?_⟩
  unfold parse_response
  rw [hpt]

/-- Witness for C2 at a concrete input. -/
theorem c2_finish_split_witness :
    ∃ p t, "ok finish(message=hi)".toList = p ++ finMarker ++ t ∧
      (∀ p' t', "ok finish(message=hi)".toList = p' ++ finMarker ++ t' →
        p.length ≤ p'.length) ∧
      parse_response "ok finish(message=hi)".toList = (pyStrip p, finMarker ++ t) :=
  c2_finish_split _ ⟨"ok ".toList, "hi)".toList, by decide⟩

/-- C3: markers are checked in the fixed priority order
`finish(message=`, `do(action=`.  First conjunct: content containing
`do(action=` but not `finish(message=` is split at the first occurrence
of `do(action=`.  Second conjunct: content containing both markers is
split at `finish(message=`, even when `do(action=` occurs earlier. -/
theorem c3_marker_priority :
    (∀ content : List Char,
      (∃ p t, content = p ++ doMarker ++ t) →
      (¬ ∃ p t, content = p ++ finMarker ++ t) →
      ∃ p t, content = p ++ doMarker ++ t ∧
        (∀ p' t', content = p' ++ doMarker ++ t' → p.length ≤ p'.length) ∧
        parse_response content = (pyStrip p, doMarker ++ t)) ∧
    (∀ content : List Char,
      (∃ p t, content = p ++ finMarker ++ t) →
      (∃ p t, content = p ++ doMarker ++ t) →
      ∃ p t, content = p ++ finMarker ++ t ∧
        parse_response content = (pyStrip p, finMarker ++ t)) := by
  constructor
  · intro content h hfin
    obtain ⟨p₀, t₀, h₀⟩ := h
    have hsome := splitFirst_isSome_of_append doMarker p₀ content t₀ h₀
    obtain ⟨⟨p, t⟩, hpt⟩ := Option.isSome_iff_exists.mp hsome
    refine ⟨p, t, splitFirst_eq_append _ _ _ _ hpt, splitFirst_min _ _ _ _ hpt, ?_⟩
    unfold parse_response
    rw [(splitFirst_eq_none_iff _ _).mpr hfin, hpt]
  · intro content h _
    obtain ⟨p₀, t₀, h₀⟩ := h
    have hsome := splitFirst_isSome_of_append finMarker p₀ content t₀ h₀
    obtain ⟨⟨p, t⟩, hpt⟩ := Option.isSome_iff_exists.mp hsome
    refine ⟨p, t, splitFirst_eq_append _ _ _ _ hpt, ?_⟩
    unfold parse_response
    rw [hpt]

/-- Witness for C3: the `do(action=` branch on content without
`finish(message=`, and the priority of `finish(message=` on content in
which `do(action=` occurs strictly earlier. -/
theorem c3_marker_priority_witness :
    (∃ p t, "x do(action=tap)".toList = p ++ doMarker ++ t ∧
      (∀ p' t', "x do(action=tap)".toList = p' ++ doMarker ++ t' →
        p.length ≤ p'.length) ∧
      parse_response "x do(action=tap)".toList = (pyStrip p, doMarker ++ t)) ∧
    (∃ p t, "a do(action=t) finish(message=m)".toList = p ++ finMarker ++ t ∧
      parse_response "a do(action=t) finish(message=m)".toList =
        (pyStrip p, finMarker ++ t)) :=
  ⟨c3_marker_priority.1 _ ⟨"x ".toList, "tap)".toList, by decide⟩
      ((splitFirst_eq_none_iff _ _).mp (by decide)),
   c3_marker_priority.2 _ ⟨"a do(action=t) ".toList, "m)".toList, by decide⟩
      ⟨"a ".toList, "t) finish(message=m)".toList, by decide⟩⟩

/-- C4, counterexample: the claim says the action is the text after the
first `<answer>` with a *trailing* `</answer>` tag stripped (then
trimmed), but the code removes *every* occurrence of `</answer>`.  On
`"<answer>a</answer>b</answer>"` the text after the tag is
`"a</answer>b</answer>"`; the code yields `"ab"` while the claim's words
yield `"a</answer>b"`. -/
theorem c4_answer_counterexample :
    "<answer>a</answer>b</answer>".toList =
      [] ++ answerTag ++ "a</answer>b</answer>".toList ∧
    (parse_response "<answer>a</answer>b</answer>".toList).2 = "ab".toList ∧
    specTrailingAnswerAction "a</answer>b</answer>".toList =
      "a</answer>b".toList ∧
    "ab".toList ≠ "a</answer>b".toList := by decide

/-- C4, amended: for content containing `<answer>` but neither
`finish(message=` nor `do(action=`, thinking is the text before the
first `<answer>` with every `<think>` occurrence removed, then every
`</think>` occurrence removed, then trimmed; action is the text after
the first `<answer>` with every `</answer>` occurrence removed, then
trimmed. -/
theorem c4_answer_branch (content : List Char)
    (h : ∃ p t, content = p ++ answerTag ++ t)
    (h1 : ¬ ∃ p t, content = p ++ finMarker ++ t)
    (h2 : ¬ ∃ p t, content = p ++ doMarker ++ t) :
    ∃ p t, content = p ++ answerTag ++ t ∧
      (∀ p' t', content = p' ++ answerTag ++ t' → p.length ≤ p'.length) ∧
      parse_response content =
        (pyStrip (removeAll thinkClose (removeAll thinkOpen p)),
         pyStrip (removeAll answerClose t)) := by
  obtain ⟨p₀, t₀, h₀⟩ := h
  have hsome := splitFirst_isSome_of_append answerTag p₀ content t₀ h₀
  obtain ⟨⟨p, t⟩, hpt⟩ := Option.isSome_iff_exists.mp hsome
  refine ⟨p, t, splitFirst_eq_append _ _ _ _ hpt, splitFirst_min _ _ _ _ hpt, ?_⟩
  unfold parse_response
  rw [(splitFirst_eq_none_iff _ _).mpr h1, (splitFirst_eq_none_iff _ _).mpr h2, hpt]

/-- Witness for the amended C4 at a concrete input. -/
theorem c4_answer_branch_witness :
    ∃ p t, "<think>why</think><answer> 42 </answer>".toList = p ++ answerTag ++ t ∧
      (∀ p' t', "<think>why</think><answer> 42 </answer>".toList =
          p' ++ answerTag ++ t' → p.length ≤ p'.length) ∧
      parse_response "<think>why</think><answer> 42 </answer>".toList =
        (pyStrip (removeAll thinkClose (removeAll thinkOpen p)),
         pyStrip (removeAll answerClose t)) :=
  c4_answer_branch _ ⟨"<think>why</think>".toList, " 42 </answer>".toList, by decide⟩
    ((splitFirst_eq_none_iff _ _).mp (by decide))
    ((splitFirst_eq_none_iff _ _).mp (by decide))

/-- C9: content containing none of the three markers is classified as
empty thinking and the whole content as action, unchanged. -/
theorem c9_fallback (content : List Char)
    (h1 : ¬ ∃ p t, content = p ++ finMarker ++ t)
    (h2 : ¬ ∃ p t, content = p ++ doMarker ++ t)
    (h3 : ¬ ∃ p t, content = p ++ answerTag ++ t) :
    parse_response content = ([], content) := by
  unfold parse_response
  rw [(splitFirst_eq_none_iff _ _).mpr h1, (splitFirst_eq_none_iff _ _).mpr h2,
      (splitFirst_eq_none_iff _ _).mpr h3]

/-- Witness for C9, at the empty content and at a plain text. -/
theorem c9_fallback_witness :
    parse_response [] = ([], []) ∧
    parse_response "plain text".toList = ([], "plain text".toList) :=
  ⟨c9_fallback [] ((splitFirst_eq_none_iff _ _).mp (by decide))
      ((splitFirst_eq_none_iff _ _).mp (by decide))
      ((splitFirst_eq_none_iff _ _).mp (by decide)),
   c9_fallback _ ((splitFirst_eq_none_iff _ _).mp (by decide))
      ((splitFirst_eq_none_iff _ _).mp (by decide))
      ((splitFirst_eq_none_iff _ _).mp (by decide))⟩

/-- C10: for content containing `finish(message=` or `do(action=`, the
returned pair reconstructs the input: content is a prefix `p` followed
by the action, thinking is `p` trimmed, and the action begins with the
matched marker. -/
theorem c10_reconstruct (content : List Char)
    (h : (∃ p t, content = p ++ finMarker ++ t) ∨
         (∃ p t, content = p ++ doMarker ++ t)) :
    ∃ p, content = p ++ (parse_response content).2 ∧
      (parse_response content).1 = pyStrip p ∧
      ((∃ r, (parse_response content).2 = finMarker ++ r) ∨
       (∃ r, (parse_response content).2 = doMarker ++ r)) := by
  cases hfin : splitFirst finMarker content with
  | some pr =>
    obtain ⟨p, t⟩ := pr
    have hdec := splitFirst_eq_append _ _ _ _ hfin
    have hpr : parse_response content = (pyStrip p, finMarker ++ t) := by
      unfold parse_response; rw [hfin]
    refine ⟨p, ?_, by rw [hpr], Or.inl ⟨t, by rw [hpr]⟩⟩
    rw [hpr, hdec]; simp
  | none =>
    have hdo : ∃ p t, content = p ++ doMarker ++ t := by
      cases h with
      | inl hf => exact absurd hf ((splitFirst_eq_none_iff _ _).mp hfin)
      | inr hd => exact hd
    obtain ⟨p₀, t₀, h₀⟩ := hdo
    have hsome := splitFirst_isSome_of_append doMarker p₀ content t₀ h₀
    obtain ⟨⟨p, t⟩, hpt⟩ := Option.isSome_iff_exists.mp hsome
    have hdec := splitFirst_eq_append _ _ _ _ hpt
    have hpr : parse_response content = (pyStrip p, doMarker ++ t) := by
      unfold parse_response; rw [hfin, hpt]
    refine ⟨p, ?_, by rw [hpr], Or.inr ⟨t, by rw [hpr]⟩⟩
    rw [hpr, hdec]; simp

/-- Witness for C10 at a concrete input containing both markers. -/
theorem c10_reconstruct_witness :
    ∃ p, "hm do(action=x) finish(message=y)".toList =
        p ++ (parse_response "hm do(action=x) finish(message=y)".toList).2 ∧
      (parse_response "hm do(action=x) finish(message=y)".toList).1 = pyStrip p ∧
      ((∃ r, (parse_response "hm do(action=x) finish(message=y)".toList).2 =
          finMarker ++ r) ∨
       (∃ r, (parse_response "hm do(action=x) finish(message=y)".toList).2 =
          doMarker ++ r)) :=
  c10_reconstruct _
    (Or.inl ⟨"hm do(action=x) ".toList, "y)".toList, by decide⟩)

/-! ## Helper lemmas about the streaming loop -/

@[simp] theorem recordFirstToken_raw (st : StreamState) (idx : Nat) :
    (recordFirstToken st idx).raw_content = st.raw_content := by
  unfold recordFirstToken; split <;> rfl

@[simp] theorem recordFirstToken_buffer (st : StreamState) (idx : Nat) :
    (recordFirstToken st idx).buffer = st.buffer := by
  unfold recordFirstToken; split <;> rfl

@[simp] theorem recordFirstToken_phase (st : StreamState) (idx : Nat) :
    (recordFirstToken st idx).in_action_phase = st.in_action_phase := by
  unfold recordFirstToken; split <;> rfl

@[simp] theorem recordFirstToken_tte (st : StreamState) (idx : Nat) :
    (recordFirstToken st idx).time_to_thinking_end = st.time_to_thinking_end := by
  unfold recordFirstToken; split <;> rfl

@[simp] theorem recordFirstToken_printed (st : StreamState) (idx : Nat) :
    (recordFirstToken st idx).printed = st.printed := by
  unfold recordFirstToken; split <;> rfl

@[simp] theorem recordFirstToken_received (st : StreamState) (idx : Nat) :
    (recordFirstToken st idx).first_token_received = true := by
  unfold recordFirstToken; split <;> simp [*]

theorem recordFirstToken_tft (st : StreamState) (idx : Nat) :
    (recordFirstToken st idx).time_to_first_token =
      if st.first_token_received then st.time_to_first_token else some idx := by
  unfold recordFirstToken; split <;> simp [*]

theorem processContent_raw (st : StreamState) (idx : Nat) (c : List Char) :
    (processContent st idx c).raw_content = st.raw_content ++ c := by
  unfold processContent
  by_cases hc : c.isEmpty
  · simp [hc, List.isEmpty_iff.mp hc]
  · simp only [hc, Bool.false_eq_true, if_false]
    split
    · simp
    · split
      · simp
      · split <;> simp

theorem processContent_phase_of_phase (st : StreamState) (idx : Nat) (c : List Char)
    (h : st.in_action_phase = true) :
    (processContent st idx c).in_action_phase = true := by
  unfold processContent
  by_cases hc : c.isEmpty
  · simp [hc, h]
  · simp [hc, h]

theorem processContent_tte_of_phase (st : StreamState) (idx : Nat) (c : List Char)
    (h : st.in_action_phase = true) :
    (processContent st idx c).time_to_thinking_end = st.time_to_thinking_end := by
  unfold processContent
  by_cases hc : c.isEmpty
  · simp [hc]
  · simp [hc, h]

theorem processContent_tte_step (st : StreamState) (idx : Nat) (c : List Char)
    (hphase : st.in_action_phase = false) (htte : st.time_to_thinking_end = none) :
    ((processContent st idx c).in_action_phase = false ∧
      (processContent st idx c).time_to_thinking_end = none) ∨
    ((processContent st idx c).in_action_phase = true ∧
      (processContent st idx c).time_to_thinking_end = some idx) := by
  unfold processContent
  by_cases hc : c.isEmpty
  · exact Or.inl (by simp [hc, hphase, htte])
  · simp only [hc, Bool.false_eq_true, if_false]
    simp only [recordFirstToken_phase, recordFirstToken_tte]
    split
    · rename_i hp
      simp [hphase] at hp
    · split
      · exact Or.inr (by simp [htte])
      · split
        · exact Or.inl (by simp [hphase, htte])
        · exact Or.inl (by simp [hphase, htte])

theorem processContent_tft_of_received (st : StreamState) (idx : Nat) (c : List Char)
    (h : st.first_token_received = true) :
    (processContent st idx c).time_to_first_token = st.time_to_first_token ∧
    (processContent st idx c).first_token_received = true := by
  unfold processContent
  by_cases hc : c.isEmpty
  · simp [hc, h]
  · simp only [hc, Bool.false_eq_true, if_false]
    split
    · simp [recordFirstToken_tft, h]
    · split
      · simp [recordFirstToken_tft, h]
      · split <;> simp [recordFirstToken_tft, h]

theorem processContent_tft_of_not_received (st : StreamState) (idx : Nat) (c : List Char)
    (h : st.first_token_received = false) (hc : c.isEmpty = false) :
    (processContent st idx c).time_to_first_token = some idx ∧
    (processContent st idx c).first_token_received = true := by
  unfold processContent
  simp only [hc, Bool.false_eq_true, if_false]
  split
  · simp [recordFirstToken_tft, h]
  · split
    · simp [recordFirstToken_tft, h]
    · split <;> simp [recordFirstToken_tft, h]

theorem processContent_of_empty (st : StreamState) (idx : Nat) (c : List Char)
    (hc : c.isEmpty = true) : processContent st idx c = st := by
  unfold processContent
  simp [hc]

theorem processEvent_raw (st : StreamState) (idx : Nat) (ev : SSEEvent) :
    (processEvent st idx ev).raw_content = st.raw_content ++ eventContent ev := by
  cases ev with
  | done => simp [processEvent, eventContent]
  | invalidJson => simp [processEvent, eventContent]
  | event choices =>
    cases choices with
    | nil => simp [processEvent, eventContent]
    | cons d ds =>
      simpa [processEvent, eventContent] using processContent_raw st idx (extractContent d)

theorem processEvent_phase_of_phase (st : StreamState) (idx : Nat) (ev : SSEEvent)
    (h : st.in_action_phase = true) :
    (processEvent st idx ev).in_action_phase = true := by
  cases ev with
  | done => exact h
  | invalidJson => exact h
  | event choices =>
    cases choices with
    | nil => exact h
    | cons d ds => exact processContent_phase_of_phase st idx (extractContent d) h

theorem processEvent_tte_of_phase (st : StreamState) (idx : Nat) (ev : SSEEvent)
    (h : st.in_action_phase = true) :
    (processEvent st idx ev).time_to_thinking_end = st.time_to_thinking_end := by
  cases ev with
  | done => rfl
  | invalidJson => rfl
  | event choices =>
    cases choices with
    | nil => rfl
    | cons d ds => exact processContent_tte_of_phase st idx (extractContent d) h

theorem processEvent_tte_step (st : StreamState) (idx : Nat) (ev : SSEEvent)
    (hphase : st.in_action_phase = false) (htte : st.time_to_thinking_end = none) :
    ((processEvent st idx ev).in_action_phase = false ∧
      (processEvent st idx ev).time_to_thinking_end = none) ∨
    ((processEvent st idx ev).in_action_phase = true ∧
      (processEvent st idx ev).time_to_thinking_end = some idx) := by
  cases ev with
  | done => exact Or.inl ⟨hphase, htte⟩
  | invalidJson => exact Or.inl ⟨hphase, htte⟩
  | event choices =>
    cases choices with
    | nil => exact Or.inl ⟨hphase, htte⟩
    | cons d ds => exact processContent_tte_step st idx (extractContent d) hphase htte

theorem processEvent_tft_of_received (st : StreamState) (idx : Nat) (ev : SSEEvent)
    (h : st.first_token_received = true) :
    (processEvent st idx ev).time_to_first_token = st.time_to_first_token ∧
    (processEvent st idx ev).first_token_received = true := by
  cases ev with
  | done => exact ⟨rfl, h⟩
  | invalidJson => exact ⟨rfl, h⟩
  | event choices =>
    cases choices with
    | nil => exact ⟨rfl, h⟩
    | cons d ds => exact processContent_tft_of_received st idx (extractContent d) h

theorem processEvent_tte_inv (st : StreamState) (idx : Nat) (ev : SSEEvent)
    (h : st.time_to_thinking_end.isSome = st.in_action_phase) :
    (processEvent st idx ev).time_to_thinking_end.isSome =
      (processEvent st idx ev).in_action_phase := by
  cases hph : st.in_action_phase with
  | true =>
    rw [processEvent_tte_of_phase st idx ev hph,
        processEvent_phase_of_phase st idx ev hph, h, hph]
  | false =>
    have htte : st.time_to_thinking_end = none := by
      cases htt : st.time_to_thinking_end with
      | none => rfl
      | some v => rw [htt] at h; rw [hph] at h; simp at h
    rcases processEvent_tte_step st idx ev hph htte with ⟨h1, h2⟩ | ⟨h1, h2⟩ <;>
      rw [h1, h2] <;> rfl

theorem runLoop_raw : ∀ (events : List SSEEvent) (st : StreamState) (idx : Nat),
    (runLoop events st idx).raw_content = st.raw_content ++ streamedContent events
  | [], st, idx => by simp [runLoop, streamedContent]
  | SSEEvent.done :: rest, st, idx => by simp [runLoop, streamedContent]
  | SSEEvent.invalidJson :: rest, st, idx => by
    have IH := runLoop_raw rest (processEvent st idx SSEEvent.invalidJson) (idx + 1)
    simp only [runLoop]
    rw [IH, processEvent_raw]
    simp [streamedContent, eventContent]
  | SSEEvent.event ch :: rest, st, idx => by
    have IH := runLoop_raw rest (processEvent st idx (SSEEvent.event ch)) (idx + 1)
    simp only [runLoop]
    rw [IH, processEvent_raw]
    simp [streamedContent, eventContent]

theorem runLoop_phase_of_phase :
    ∀ (events : List SSEEvent) (st : StreamState) (idx : Nat),
      st.in_action_phase = true → (runLoop events st idx).in_action_phase = true
  | [], st, idx, h => h
  | SSEEvent.done :: rest, st, idx, h => h
  | SSEEvent.invalidJson :: rest, st, idx, h =>
    runLoop_phase_of_phase rest _ (idx + 1) (processEvent_phase_of_phase st idx _ h)
  | SSEEvent.event ch :: rest, st, idx, h =>
    runLoop_phase_of_phase rest _ (idx + 1) (processEvent_phase_of_phase st idx _ h)

theorem runLoop_tte_inv :
    ∀ (events : List SSEEvent) (st : StreamState) (idx : Nat),
      st.time_to_thinking_end.isSome = st.in_action_phase →
      (runLoop events st idx).time_to_thinking_end.isSome =
        (runLoop events st idx).in_action_phase
  | [], st, idx, h => h
  | SSEEvent.done :: rest, st, idx, h => h
  | SSEEvent.invalidJson :: rest, st, idx, h =>
    runLoop_tte_inv rest _ (idx + 1) (processEvent_tte_inv st idx _ h)
  | SSEEvent.event ch :: rest, st, idx, h =>
    runLoop_tte_inv rest _ (idx + 1) (processEvent_tte_inv st idx _ h)

theorem runLoop_tft_of_received :
    ∀ (events : List SSEEvent) (st : StreamState) (idx : Nat),
      st.first_token_received = true →
      (runLoop events st idx).time_to_first_token = st.time_to_first_token
  | [], st, idx, h => rfl
  | SSEEvent.done :: rest, st, idx, h => rfl
  | SSEEvent.invalidJson :: rest, st, idx, h => by
    obtain ⟨h1, h2⟩ := processEvent_tft_of_received st idx SSEEvent.invalidJson h
    rw [show runLoop (SSEEvent.invalidJson :: rest) st idx =
          runLoop rest (processEvent st idx SSEEvent.invalidJson) (idx + 1) by
        simp [runLoop]]
    rw [runLoop_tft_of_received rest _ (idx + 1) h2, h1]
  | SSEEvent.event ch :: rest, st, idx, h => by
    obtain ⟨h1, h2⟩ := processEvent_tft_of_received st idx (SSEEvent.event ch) h
    rw [show runLoop (SSEEvent.event ch :: rest) st idx =
          runLoop rest (processEvent st idx (SSEEvent.event ch)) (idx + 1) by
        simp [runLoop]]
    rw [runLoop_tft_of_received rest _ (idx + 1) h2, h1]

theorem runLoop_tft_of_waiting :
    ∀ (events : List SSEEvent) (st : StreamState) (idx : Nat),
      st.first_token_received = false → st.time_to_first_token = none →
      (runLoop events st idx).time_to_first_token = firstContentIdx events idx
  | [], st, idx, _, htft => by simp [runLoop, firstContentIdx, htft]
  | SSEEvent.done :: rest, st, idx, _, htft => by
    simp [runLoop, firstContentIdx, htft]
  | SSEEvent.invalidJson :: rest, st, idx, h, htft => by
    simp only [runLoop, firstContentIdx]
    rw [if_pos (by simp [eventContent])]
    exact runLoop_tft_of_waiting rest _ (idx + 1) h htft
  | SSEEvent.event ch :: rest, st, idx, h, htft => by
    simp only [runLoop, firstContentIdx]
    cases ch with
    | nil =>
      rw [if_pos (by simp [eventContent])]
      exact runLoop_tft_of_waiting rest _ (idx + 1) h htft
    | cons d ds =>
      cases hce : (extractContent d).isEmpty with
      | true =>
        rw [if_pos (by simp [eventContent, hce])]
        have hpe : processEvent st idx (SSEEvent.event (d :: ds)) = st :=
          processContent_of_empty st idx (extractContent d) hce
        rw [hpe]
        exact runLoop_tft_of_waiting rest _ (idx + 1) h htft
      | false =>
        rw [if_neg (by simp [eventContent, hce])]
        obtain ⟨h1, h2⟩ := processContent_tft_of_not_received st idx (extractContent d) h hce
        have hpe : processEvent st idx (SSEEvent.event (d :: ds)) =
            processContent st idx (extractContent d) := rfl
        rw [hpe, runLoop_tft_of_received rest _ (idx + 1) h2]
        exact h1

/-! ## Branch lemmas for the marker-detection step -/

theorem scanMarkers_eq_none (buf : List Char)
    (h1 : ¬ ∃ p t, buf = p ++ finMarker ++ t)
    (h2 : ¬ ∃ p t, buf = p ++ doMarker ++ t) :
    scanMarkers buf = none := by
  unfold scanMarkers
  rw [(splitFirst_eq_none_iff _ _).mpr h1, (splitFirst_eq_none_iff _ _).mpr h2]

theorem scanMarkers_of_fin (buf p t : List Char)
    (h : splitFirst finMarker buf = some (p, t)) :
    scanMarkers buf = some p := by
  unfold scanMarkers
  rw [h]

theorem scanMarkers_of_do (buf p t : List Char)
    (hfin : splitFirst finMarker buf = none)
    (h : splitFirst doMarker buf = some (p, t)) :
    scanMarkers buf = some p := by
  unfold scanMarkers
  rw [hfin, h]

theorem hasPartial_of_proper (buf : List Char) (h : ProperMarkerSuffix buf) :
    hasPartialMarkerAtEnd buf = true := by
  obtain ⟨m, hm, i, r, hi0, hilen, hbuf⟩ := h
  unfold hasPartialMarkerAtEnd
  rw [List.any_eq_true]
  refine ⟨m, ?_, ?_⟩
  · cases hm with
    | inl h => simp [h]
    | inr h => simp [h]
  · rw [List.any_eq_true]
    refine ⟨i, ?_, ?_⟩
    · rw [ List.mem_range'_1]
      omega
    · rw [ List.isSuffixOf_iff_suffix]
      exact ⟨r, hbuf.symm⟩

theorem processContent_withhold (st : StreamState) (idx : Nat) (c : List Char)
    (hphase : st.in_action_phase = false) (hc : c.isEmpty = false)
    (hscan : scanMarkers (st.buffer ++ c) = none)
    (hpart : hasPartialMarkerAtEnd (st.buffer ++ c) = true) :
    (processContent st idx c).printed = st.printed ∧
    (processContent st idx c).buffer = st.buffer ++ c := by
  unfold processContent
  simp only [hc, Bool.false_eq_true, if_false, recordFirstToken_phase,
    recordFirstToken_buffer, recordFirstToken_printed]
  split
  · rename_i hp
    rw [show ({ st with raw_content := st.raw_content ++ c } :
        StreamState).in_action_phase = st.in_action_phase from rfl] at hp
    rw [hphase] at hp
    simp at hp
  · rw [show ({ st with raw_content := st.raw_content ++ c} :
        StreamState).buffer = st.buffer from rfl]
    rw [hscan]
    simp [hpart]

theorem processContent_marker_print (st : StreamState) (idx : Nat) (c p : List Char)
    (hphase : st.in_action_phase = false) (hc : c.isEmpty = false)
    (hscan : scanMarkers (st.buffer ++ c) = some p) :
    (processContent st idx c).printed = st.printed ++ p ++ ['\n'] := by
  unfold processContent
  simp only [hc, Bool.false_eq_true, if_false, recordFirstToken_phase,
    recordFirstToken_buffer, recordFirstToken_printed]
  split
  · rename_i hp
    rw [show ({ st with raw_content := st.raw_content ++ c } :
        StreamState).in_action_phase = st.in_action_phase from rfl] at hp
    rw [hphase] at hp
    simp at hp
  · rw [show ({ st with raw_content := st.raw_content ++ c} :
        StreamState).buffer = st.buffer from rfl]
    rw [hscan]

/-! ## Claims about the streaming loop -/

/-- Concrete mid-stream state: the first chunk `"hello do(acti"` has
been received, entirely withheld in the buffer. -/
def midState : StreamState :=
  ⟨"hello do(acti".toList, "hello do(acti".toList, false, true, some 0, none, []⟩

/-- Concrete state that has already entered the action phase. -/
def actionState : StreamState :=
  ⟨"t finish(message=done".toList, "t finish(message=done".toList, true, true,
   some 0, some 1, "t\n".toList⟩

/-- C1: while not in the action phase, a chunk whose accumulated buffer
contains no full marker but ends in a proper prefix of a marker is
withheld entirely (nothing printed, buffer kept); and when a marker is
detected, exactly the text strictly before the first occurrence of the
matched marker (plus a newline) is printed — so no proper prefix of a
marker split across chunks is ever printed before the full marker is
recognized. -/
theorem c1_split_marker_withheld (st : StreamState) (idx : Nat) (content : List Char)
    (hphase : st.in_action_phase = false) (hne : content ≠ []) :
    ((¬ ∃ p t, st.buffer ++ content = p ++ finMarker ++ t) →
     (¬ ∃ p t, st.buffer ++ content = p ++ doMarker ++ t) →
     ProperMarkerSuffix (st.buffer ++ content) →
     (processContent st idx content).printed = st.printed ∧
     (processContent st idx content).buffer = st.buffer ++ content) ∧
    (∀ p t, st.buffer ++ content = p ++ finMarker ++ t →
     (∀ p' t', st.buffer ++ content = p' ++ finMarker ++ t' → p.length ≤ p'.length) →
     (processContent st idx content).printed = st.printed ++ p ++ ['\n']) ∧
    (∀ p t, st.buffer ++ content = p ++ doMarker ++ t →
     (¬ ∃ p' t', st.buffer ++ content = p' ++ finMarker ++ t') →
     (∀ p' t', st.buffer ++ content = p' ++ doMarker ++ t' → p.length ≤ p'.length) →
     (processContent st idx content).printed = st.printed ++ p ++ ['\n']) := by
  have hc : content.isEmpty = false := by
    cases hh : content.isEmpty with
    | false => rfl
    | true => exact absurd (List.isEmpty_iff.mp hh) hne
  refine ⟨?_, ?_, ?_⟩
  · intro h1 h2 hps
    exact processContent_withhold st idx content hphase hc
      (scanMarkers_eq_none _ h1 h2) (hasPartial_of_proper _ hps)
  · intro p t hdec hmin
    exact processContent_marker_print st idx content p hphase hc
      (scanMarkers_of_fin _ _ t (splitFirst_eq_some_of_first _ _ _ _ hdec hmin))
  · intro p t hdec hnofin hmin
    exact processContent_marker_print st idx content p hphase hc
      (scanMarkers_of_do _ _ t ((splitFirst_eq_none_iff _ _).mpr hnofin)
        (splitFirst_eq_some_of_first _ _ _ _ hdec hmin))

/-- Witness for C1: the marker `do(action=` split as `"hello do(acti"`
then `"on=run)"`; the first chunk is withheld entirely, and at the
second chunk only `"hello "` (the text strictly before the marker) is
printed. -/
theorem c1_split_marker_withheld_witness :
    ((processContent initState 0 "hello do(acti".toList).printed = initState.printed ∧
     (processContent initState 0 "hello do(acti".toList).buffer =
       initState.buffer ++ "hello do(acti".toList) ∧
    (processContent midState 1 "on=run)".toList).printed =
      midState.printed ++ "hello ".toList ++ ['\n'] :=
  ⟨(c1_split_marker_withheld initState 0 _ rfl (by decide)).1
      ((splitFirst_eq_none_iff _ _).mp (by decide))
      ((splitFirst_eq_none_iff _ _).mp (by decide))
      ⟨doMarker, Or.inr rfl, 7, "hello ".toList, by decide, by decide, by decide⟩,
   (c1_split_marker_withheld midState 1 _ rfl (by decide)).2.2
      "hello ".toList "run)".toList (by decide)
      ((splitFirst_eq_none_iff _ _).mp (by decide))
      (splitFirst_min doMarker (midState.buffer ++ "on=run)".toList)
        "hello ".toList "run)".toList (by decide))⟩

/-- C5: at every point of a request (equivalently, for every event
stream, since the state reached after any prefix of a stream is
`runEvents` of that prefix), `raw_content` is the exact concatenation,
in arrival order, of every non-empty delta content value received
before the `[DONE]` sentinel, independent of printing and buffering and
of the action phase. -/
theorem c5_raw_content_concat (events : List SSEEvent) :
    (runEvents events).raw_content = streamedContent events := by
  have h := runLoop_raw events initState 0
  simpa [runEvents, initState] using h

/-- C6: the phase transition is one-way — a single event-processing
step, and hence any remaining run of the loop, preserves
`in_action_phase = true`. -/
theorem c6_phase_one_way :
    (∀ (st : StreamState) (idx : Nat) (ev : SSEEvent), st.in_action_phase = true →
      (processEvent st idx ev).in_action_phase = true) ∧
    (∀ (events : List SSEEvent) (st : StreamState) (idx : Nat),
      st.in_action_phase = true → (runLoop events st idx).in_action_phase = true) :=
  ⟨processEvent_phase_of_phase, runLoop_phase_of_phase⟩

/-- Witness for C6 at a concrete in-action-phase state. -/
theorem c6_phase_one_way_witness :
    (processEvent actionState 3
      (SSEEvent.event [⟨some "more".toList, none⟩])).in_action_phase = true ∧
    (runLoop [SSEEvent.event [⟨some "x".toList, none⟩], SSEEvent.done]
      actionState 3).in_action_phase = true :=
  ⟨c6_phase_one_way.1 actionState 3 _ rfl, c6_phase_one_way.2 _ actionState 3 rfl⟩

/-- C7: `time_to_thinking_end` is present in the result exactly when the
action phase was entered (so it stays `none` when no marker is ever
found); once the action phase holds, no step alters it; and while the
phase is off and it is unset, a step either leaves both unchanged or
sets it (to the current clock) exactly when the phase flips at marker
detection — so it is assigned exactly once, at the first marker
detection. -/
theorem c7_thinking_end_once :
    (∀ events : List SSEEvent,
      (request events).time_to_thinking_end.isSome =
        (runEvents events).in_action_phase) ∧
    (∀ (st : StreamState) (idx : Nat) (ev : SSEEvent), st.in_action_phase = true →
      (processEvent st idx ev).time_to_thinking_end = st.time_to_thinking_end) ∧
    (∀ (st : StreamState) (idx : Nat) (ev : SSEEvent),
      st.in_action_phase = false → st.time_to_thinking_end = none →
      ((processEvent st idx ev).in_action_phase = false ∧
        (processEvent st idx ev).time_to_thinking_end = none) ∨
      ((processEvent st idx ev).in_action_phase = true ∧
        (processEvent st idx ev).time_to_thinking_end = some idx)) := by
  refine ⟨?_, processEvent_tte_of_phase, processEvent_tte_step⟩
  intro events
  exact runLoop_tte_inv events initState 0 rfl

/-- Witness for C7 at concrete streams and states. -/
theorem c7_thinking_end_once_witness :
    (request [SSEEvent.event [⟨some "a finish(message=x)".toList, none⟩],
        SSEEvent.done]).time_to_thinking_end.isSome =
      (runEvents [SSEEvent.event [⟨some "a finish(message=x)".toList, none⟩],
        SSEEvent.done]).in_action_phase ∧
    (processEvent actionState 5 SSEEvent.invalidJson).time_to_thinking_end =
      actionState.time_to_thinking_end ∧
    (((processEvent initState 0
        (SSEEvent.event [⟨some "hi".toList, none⟩])).in_action_phase = false ∧
      (processEvent initState 0
        (SSEEvent.event [⟨some "hi".toList, none⟩])).time_to_thinking_end = none) ∨
     ((processEvent initState 0
        (SSEEvent.event [⟨some "hi".toList, none⟩])).in_action_phase = true ∧
      (processEvent initState 0
        (SSEEvent.event [⟨some "hi".toList, none⟩])).time_to_thinking_end = some 0)) :=
  ⟨c7_thinking_end_once.1 _, c7_thinking_end_once.2.1 actionState 5 _ rfl,
   c7_thinking_end_once.2.2 initState 0 _ rfl rfl⟩

/-- C8: `time_to_first_token` of the result is exactly the clock value
of the first event whose extracted delta content is non-empty (`none`
when the stream yields no non-empty content before the sentinel), and
once `first_token_received` holds no step alters it. -/
theorem c8_first_token_once :
    (∀ events : List SSEEvent,
      (request events).time_to_first_token = firstContentIdx events 0) ∧
    (∀ (st : StreamState) (idx : Nat) (ev : SSEEvent),
      st.first_token_received = true →
      (processEvent st idx ev).time_to_first_token = st.time_to_first_token) := by
  refine ⟨?_, fun st idx ev h => (processEvent_tft_of_received st idx ev h).1⟩
  intro events
  exact runLoop_tft_of_waiting events initState 0 rfl rfl

/-- Witness for C8: a stream whose first two events carry no usable
content (invalid JSON, then an empty `content` field falling back to
`text`), and a step from a state that has already received a token. -/
theorem c8_first_token_once_witness :
    (request [SSEEvent.invalidJson, SSEEvent.event [⟨some [], some "hi".toList⟩],
        SSEEvent.done]).time_to_first_token =
      firstContentIdx [SSEEvent.invalidJson,
        SSEEvent.event [⟨some [], some "hi".toList⟩], SSEEvent.done] 0 ∧
    (processEvent actionState 7
        (SSEEvent.event [⟨some "z".toList, none⟩])).time_to_first_token =
      actionState.time_to_first_token :=
  ⟨c8_first_token_once.1 _, c8_first_token_once.2 actionState 7 _ rfl⟩

end LlamaClient
